import Mathlib

set_option autoImplicit false

/-!
Verification of the media-derivation pipeline in
`ffmpeg-convert-video/functions/index.js` (the `generateThumbnail` storage
trigger, the variant with the 300×300 thumbnail box, the minimum-size gate
and the video poster/preview artifacts).

Modelling choices, stated once:
* JavaScript strings are lists of characters (`Str`).
* The external collaborators (object store, `ffprobe`, `ffmpeg`, ImageMagick)
  are an `Env` of per-call outcomes; `ffprobe` is deterministic per file, and
  both probing helpers inspect the same downloaded file, so one probe result
  serves both.
* One invocation of the trigger is the pure function `handle` from the
  inbound object and the environment to an `Outcome` plus the trace of
  external effects (`Event` list) it performed, in program order.  A local
  scratch file exists at return exactly when a `download`/transform created
  it and no `unlink` of it appears in the trace.
* JavaScript number arithmetic in the preview-scale computation is modelled
  exactly over `ℚ` (the source uses IEEE doubles; the quantities involved are
  ratios of small integers).
* `os.tmpdir()` is the constant `/tmp`; `path.normalize` is the identity,
  since every path this module constructs from a storage object key is
  already free of `.`/`..` segments and duplicate slashes.
-/

/-- JavaScript strings, modelled as lists of characters. -/
abbrev Str := List Char

/-- JS `s.toLowerCase()` (ASCII, which covers every literal the code compares against). -/
def lower (s : Str) : Str := s.map Char.toLower

/-- Matcher for the JS regex `/\.[^/.]+$/` (index.js lines 101, 132, 204) run on
the reversed string: consume one or more characters that are neither `.` nor
`/`, then a `.`; return the length of the matched suffix (dot included), or
`none` when the regex does not match the end of the string. -/
def revMatch : Str → Nat → Option Nat
  | [], _ => none
  | c :: rest, acc =>
    if c = '.' then (if acc = 0 then none else some (acc + 1))
    else if c = '/' then none
    else revMatch rest (acc + 1)

/-- JS `s.replace(/\.[^/.]+$/, repl)`: replace the final dot-extension by `repl`;
when the base name has no such extension the string is returned unchanged. -/
def replaceExt (s repl : Str) : Str :=
  match revMatch s.reverse 0 with
  | none => s
  | some n => s.take (s.length - n) ++ repl

/-- Does the regex `/\.[^/.]+$/` match `s` (i.e. does `s` end in a dot-extension)? -/
def hasExt (s : Str) : Bool := (revMatch s.reverse 0).isSome

/-- Node `path.basename`: the part after the last `/` (for keys without a trailing slash). -/
def baseName (s : Str) : Str := (s.reverse.takeWhile (fun c => c ≠ '/')).reverse

/-- Node `path.dirname`: the part before the last `/`, or `.` when there is no slash
(for keys without a trailing slash). -/
def dirName (s : Str) : Str :=
  match s.reverse.dropWhile (fun c => c ≠ '/') with
  | [] => ['.']
  | _ :: rest => rest.reverse

/-- Node `path.join a b` for the argument shapes this module produces: joining onto
`.` yields the relative path itself. -/
def pathJoin (a b : Str) : Str := if a = ['.'] then b else a ++ '/' :: b

/-- Node `path.normalize`: identity on the already-normal paths this module builds
(storage keys contain no `.`/`..` segments and no duplicate slashes). -/
def pathNormalize (s : Str) : Str := s

/-- Node `os.tmpdir()`. -/
def tmpdir : Str := "/tmp".data

/-- Max height and width of the thumbnail in pixels (index.js line 31). -/
def THUMB_MAX_HEIGHT : Int := 300

/-- Max width of the thumbnail in pixels (index.js line 32). -/
def THUMB_MAX_WIDTH : Int := 300

/-- The four derived-artifact kinds the pipeline produces. -/
inductive ArtifactKind where
  | thumbnail
  | transcode
  | preview
  | poster
deriving DecidableEq

/-- The derived store key for each artifact kind, exactly as the code computes
it: thumbnail from line 73, transcode from line 101, preview from line 132,
poster from line 204 (the poster is computed from the full path, the others
from directory + base name). -/
def derivedKey (k : ArtifactKind) (key : Str) : Str :=
  match k with
  | .thumbnail => pathNormalize (pathJoin (dirName key) ("thumb_".data ++ baseName key))
  | .transcode => pathNormalize (pathJoin (dirName key) (replaceExt (baseName key) "_output.mp4".data))
  | .preview => pathNormalize (pathJoin (dirName key) (replaceExt (baseName key) "_thumb_output.mp4".data))
  | .poster => replaceExt key "_poster.jpg".data

/-- The already-derived classification: the checks of index.js lines 65 and 94,
keyed on the branch the content type selects.  Images: base name starts with
`thumb_` or ends with `_poster.jpg` (case-insensitive).  Videos: base name
ends with `_output.mp4` (case-insensitive).  Other content types never reach
either check. -/
def isAlreadyDerived (key contentType : Str) : Bool :=
  if "image/".data.isPrefixOf (lower contentType) then
    "thumb_".data.isPrefixOf (lower (baseName key)) || "_poster.jpg".data.isSuffixOf (lower (baseName key))
  else if "video/".data.isPrefixOf (lower contentType) then
    "_output.mp4".data.isSuffixOf (lower (baseName key))
  else false

/-- One ffprobe stream record, with the fields the code reads. -/
structure StreamInfo where
  codec_type : Str
  codec_name : Str
  width : Int
  height : Int
deriving DecidableEq

/-- The ffprobe metadata object. -/
structure FfprobeMetadata where
  streams : List StreamInfo
deriving DecidableEq

/-- How a JS promise can end up: resolved with a value, rejected, or never
settled at all (the awaiting caller then hangs forever). -/
inductive PromiseRes (α : Type) where
  | resolved (val : α)
  | rejected
  | unsettled
deriving DecidableEq

/-- Function `getCodec` (index.js lines 149–167).  On probe error the promise is
rejected.  Otherwise the code iterates `metadata.streams` with `forEach` and
calls `resolve(stream.codec_name)` for every stream whose `codec_type` is
`"video"`; a promise keeps its first settlement, so the result is the codec
name of the FIRST video stream.  When no stream has `codec_type = "video"`
neither `resolve` nor `reject` is ever called (the `return` inside the
`forEach` callback only ends that iteration), so the promise never settles. -/
def getCodec (res : Except Unit FfprobeMetadata) : PromiseRes Str :=
  match res with
  | .error _ => .rejected
  | .ok md =>
    match md.streams.find? (fun s => s.codec_type == "video".data) with
    | some s => .resolved s.codec_name
    | none => .unsettled

/-- The dimension record `getDimentions` resolves with. -/
structure Dimensions where
  width : Int
  height : Int
deriving DecidableEq

/-- Function `getDimentions` (index.js lines 169–183).  On probe error the promise is
rejected (the missing `return` after `rej(err)` then makes the callback throw
while reading `metadata.streams[0]`, but the promise already kept its
rejection).  Otherwise it resolves with `streams[0].width/height`; with an
empty stream list reading `streams[0].width` throws inside the callback and
the promise never settles. -/
def getDimentions (res : Except Unit FfprobeMetadata) : PromiseRes Dimensions :=
  match res with
  | .error _ => .rejected
  | .ok md =>
    match md.streams.head? with
    | some s => .resolved ⟨s.width, s.height⟩
    | none => .unsettled

/-- Index.js lines 122–124: the height-reduction percentage, `0` unless the
height exceeds 480. -/
def reduceHeightPercentage (height : Int) : ℚ :=
  if height > 480 then 100 - (((height : ℚ) - 480) / (height : ℚ)) * 100 else 0

/-- Index.js lines 125–127: the width-reduction percentage, `0` unless the
width exceeds 425. -/
def reduceWidthPercentage (width : Int) : ℚ :=
  if width > 425 then 100 - (((width : ℚ) - 425) / (width : ℚ)) * 100 else 0

/-- Index.js line 128: `Math.floor` of the smaller of the two reduction
percentages; the preview artifact is produced iff this is positive. -/
def previewReduce (width height : Int) : Int :=
  Int.floor (if reduceHeightPercentage height < reduceWidthPercentage width
    then reduceHeightPercentage height else reduceWidthPercentage width)

/-- The preview scale percentage as the spec words it (§4.4 tie-break rule):
per axis `100 − ((dimension − threshold) / dimension) × 100` with threshold
480 for height and 425 for width, clamped to 0 when the dimension does not
exceed its threshold, then the smaller of the two values floored. -/
def specPreviewScale (width height : Int) : Int :=
  Int.floor (min
    (if 480 < height then 100 - (((height : ℚ) - 480) / (height : ℚ)) * 100 else 0)
    (if 425 < width then 100 - (((width : ℚ) - 425) / (width : ℚ)) * 100 else 0))

/-- The trigger payload: object key, bucket, content type. -/
structure InObject where
  name : Str
  bucket : Str
  contentType : Str

/-- The parameters of one external media transform. -/
inductive TKind where
  | imagemagickThumb (maxWidth maxHeight : Int)
  | ffmpegConvert (scalePercent : Int)
  | ffmpegPoster (seekSeconds frames : Int)
deriving DecidableEq

/-- One transform invocation: local input path, local output path, parameters. -/
structure Transform where
  input : Str
  output : Str
  kind : TKind
deriving DecidableEq

/-- One store upload: local source, destination key, and the metadata the code
passes (`public` flag, optional content type, cache control, gzip flag). -/
structure Upload where
  localPath : Str
  destination : Str
  isPublic : Bool
  contentType : Option Str
  cacheControl : Option Str
  gzip : Bool
deriving DecidableEq

/-- The externally observable effects of one invocation, in program order. -/
inductive Event where
  | download (key dest : Str)
  | probe (localPath : Str)
  | transform (t : Transform)
  | upload (u : Upload)
  | unlink (localPath : Str)
deriving DecidableEq

/-- Is this event a store download? -/
def Event.isDownload : Event → Bool
  | .download _ _ => true
  | _ => false

/-- Is this event a store upload? -/
def Event.isUpload : Event → Bool
  | .upload _ => true
  | _ => false

/-- Is this event a media transform? -/
def Event.isTransform : Event → Bool
  | .transform _ => true
  | _ => false

/-- The outcomes of the external calls one invocation may make.  `probe` is
the single ffprobe result for the downloaded file (both `getCodec` and
`getDimentions` probe that same file); the `…Ok` fields say whether each
transform or upload call succeeds. -/
structure Env where
  downloadOk : Bool
  probe : Except Unit FfprobeMetadata
  thumbConvertOk : Bool
  thumbUploadOk : Bool
  transcodeConvertOk : Bool
  transcodeUploadOk : Bool
  posterConvertOk : Bool
  posterUploadOk : Bool
  previewConvertOk : Bool
  previewUploadOk : Bool

/-- How the invocation ends: normal return, a rejected promise propagated to
the trigger framework, or an await on a promise that never settles. -/
inductive Outcome where
  | ok
  | error
  | hang
deriving DecidableEq

/-- Index.js lines 100–114: convert to `_output.mp4` at 100% scale, upload it
publicly with a 1-year cache-control and the gzip flag, then unlink the
converted temp file. -/
def transcodeStep (fileDir fileName tempLocalFile : Str) (env : Env) (ev : List Event) :
    Outcome × List Event :=
  let mp4FilePath := pathNormalize (pathJoin fileDir (replaceExt fileName "_output.mp4".data))
  let targetTempFilePath := pathJoin tmpdir mp4FilePath
  let ev := ev ++ [Event.transform ⟨tempLocalFile, targetTempFilePath, TKind.ffmpegConvert 100⟩]
  if env.transcodeConvertOk then
    let ev := ev ++ [Event.upload ⟨targetTempFilePath, mp4FilePath, true, none,
      some "public, max-age=31536000".data, true⟩]
    if env.transcodeUploadOk then (.ok, ev ++ [Event.unlink targetTempFilePath]) else (.error, ev)
  else (.error, ev)

/-- Function `createPoster` (index.js lines 203–214): extract one frame at one second
into `_poster.jpg`, upload it (no `public` flag) with a 1-year cache-control
and the gzip flag, then unlink the local poster file. -/
def posterStep (filePath tempLocalFile : Str) (env : Env) (ev : List Event) :
    Outcome × List Event :=
  let remotePath := replaceExt filePath "_poster.jpg".data
  let localPath := pathJoin tmpdir remotePath
  let ev := ev ++ [Event.transform ⟨tempLocalFile, localPath, TKind.ffmpegPoster 1 1⟩]
  if env.posterConvertOk then
    let ev := ev ++ [Event.upload ⟨localPath, remotePath, false, none,
      some "public, max-age=31536000".data, true⟩]
    if env.posterUploadOk then (.ok, ev ++ [Event.unlink localPath]) else (.error, ev)
  else (.error, ev)

/-- Index.js lines 129–143: convert to `_thumb_output.mp4` at the computed
reduction percentage, upload it publicly with a 1-year cache-control and the
gzip flag, then unlink the converted temp file. -/
def previewStep (fileDir fileName tempLocalFile : Str) (env : Env) (ev : List Event)
    (reduce : Int) : Outcome × List Event :=
  let mp4FilePathThumb := pathNormalize (pathJoin fileDir (replaceExt fileName "_thumb_output.mp4".data))
  let targetTempFilePathThumb := pathJoin tmpdir mp4FilePathThumb
  let ev := ev ++ [Event.transform ⟨tempLocalFile, targetTempFilePathThumb, TKind.ffmpegConvert reduce⟩]
  if env.previewConvertOk then
    let ev := ev ++ [Event.upload ⟨targetTempFilePathThumb, mp4FilePathThumb, true, none,
      some "public, max-age=31536000".data, true⟩]
    if env.previewUploadOk then (.ok, ev ++ [Event.unlink targetTempFilePathThumb]) else (.error, ev)
  else (.error, ev)

/-- The image branch of `generateThumbnail` (index.js lines 63–91): skip when
the base name is already a thumbnail or a poster, probe dimensions, skip when
the image is smaller than the thumbnail box on both axes, otherwise create the
thumbnail with ImageMagick, upload it publicly with a 1-hour cache-control and
the original content type, and unlink both local files.  The early-skip
returns do NOT unlink the downloaded file. -/
def imageBranch (contentType fileDir fileName tempLocalFile : Str) (env : Env)
    (ev : List Event) : Outcome × List Event :=
  if "thumb_".data.isPrefixOf (lower fileName) || "_poster.jpg".data.isSuffixOf (lower fileName) then
    (.ok, ev)
  else
    let ev := ev ++ [Event.probe tempLocalFile]
    match getDimentions env.probe with
    | .rejected => (.error, ev)
    | .unsettled => (.hang, ev)
    | .resolved picDimensions =>
      if picDimensions.width < THUMB_MAX_WIDTH ∧ picDimensions.height < THUMB_MAX_HEIGHT then
        (.ok, ev)
      else
        let thumbFilePath := pathNormalize (pathJoin fileDir ("thumb_".data ++ fileName))
        let tempLocalThumbFile := pathJoin tmpdir thumbFilePath
        let ev := ev ++ [Event.transform ⟨tempLocalFile, tempLocalThumbFile,
          TKind.imagemagickThumb THUMB_MAX_WIDTH THUMB_MAX_HEIGHT⟩]
        if env.thumbConvertOk then
          let ev := ev ++ [Event.upload ⟨tempLocalThumbFile, thumbFilePath, true,
            some contentType, some "public,max-age=3600".data, false⟩]
          if env.thumbUploadOk then
            (.ok, ev ++ [Event.unlink tempLocalThumbFile, Event.unlink tempLocalFile])
          else (.error, ev)
        else (.error, ev)

/-- The video branch of `generateThumbnail` (index.js lines 92–146): skip when
the base name already ends in `_output.mp4`, probe the codec, transcode unless
the codec is already `h264`, always create the poster, probe dimensions, and
produce the preview iff the computed reduction percentage is positive; finally
unlink the downloaded file.  The early-skip return does NOT unlink it. -/
def videoBranch (filePath fileDir fileName tempLocalFile : Str) (env : Env)
    (ev : List Event) : Outcome × List Event :=
  if "_output.mp4".data.isSuffixOf (lower fileName) then (.ok, ev)
  else
    let ev := ev ++ [Event.probe tempLocalFile]
    match getCodec env.probe with
    | .rejected => (.error, ev)
    | .unsettled => (.hang, ev)
    | .resolved codec =>
      match (if codec ≠ "h264".data then transcodeStep fileDir fileName tempLocalFile env ev
             else (.ok, ev)) with
      | (.ok, ev) =>
        match posterStep filePath tempLocalFile env ev with
        | (.ok, ev) =>
          let ev := ev ++ [Event.probe tempLocalFile]
          match getDimentions env.probe with
          | .rejected => (.error, ev)
          | .unsettled => (.hang, ev)
          | .resolved dimensions =>
            let reduce := previewReduce dimensions.width dimensions.height
            match (if reduce > 0 then previewStep fileDir fileName tempLocalFile env ev reduce
                   else (.ok, ev)) with
            | (.ok, ev) => (.ok, ev ++ [Event.unlink tempLocalFile])
            | bad => bad
        | bad => bad
      | bad => bad

/-- One invocation of `generateThumbnail` (index.js lines 42–147): return
immediately for content types that are neither image nor video; otherwise
download the object to `os.tmpdir()/key` and dispatch on the content type. -/
def handle (o : InObject) (env : Env) : Outcome × List Event :=
  let filePath := o.name
  let contentType := o.contentType
  if !("image/".data.isPrefixOf (lower contentType)) && !("video/".data.isPrefixOf (lower contentType)) then
    (.ok, [])
  else
    let fileDir := dirName filePath
    let fileName := baseName filePath
    let tempLocalFile := pathJoin tmpdir filePath
    let ev := [Event.download filePath tempLocalFile]
    if env.downloadOk then
      if "image/".data.isPrefixOf (lower contentType) then
        imageBranch contentType fileDir fileName tempLocalFile env ev
      else if "video/".data.isPrefixOf (lower contentType) then
        videoBranch filePath fileDir fileName tempLocalFile env ev
      else (.ok, ev)
    else (.error, ev)

/-! ### String and path helper lemmas -/

lemma isPrefixOf_append_self (l r : Str) : l.isPrefixOf (l ++ r) = true := by
  induction l with
  | nil => simp [List.isPrefixOf]
  | cons a as ih => simp [List.isPrefixOf, ih]

lemma isSuffixOf_append_self (l r : Str) : l.isSuffixOf (r ++ l) = true := by
  simp [List.isSuffixOf]

lemma takeWhile_append_sat (p : Char → Bool) (l r : Str) (h : ∀ c ∈ l, p c = true) :
    (l ++ r).takeWhile p = l ++ r.takeWhile p := by
  induction l with
  | nil => simp
  | cons a as ih =>
    simp only [List.cons_append, List.takeWhile_cons, h a (by simp)]
    simp [ih fun c hc => h c (by simp [hc])]

lemma lower_append (a b : Str) : lower (a ++ b) = lower a ++ lower b := by
  simp [lower]

lemma baseName_append_noSlash (x r : Str) (hr : ∀ c ∈ r, c ≠ '/') :
    baseName (x ++ r) = baseName x ++ r := by
  unfold baseName
  rw [List.reverse_append, takeWhile_append_sat _ r.reverse x.reverse
    (fun c hc => by simpa using hr c (by simpa using hc))]
  simp

lemma slash_not_mem_baseName (s : Str) : ∀ c ∈ baseName s, c ≠ '/' := by
  intro c hc
  have := List.mem_takeWhile_imp (by simpa [baseName] using hc)
  simpa using this

lemma baseName_pathJoin (d b : Str) (hb : ∀ c ∈ b, c ≠ '/') :
    baseName (pathJoin d b) = b := by
  unfold pathJoin
  split
  · have := baseName_append_noSlash [] b hb
    simpa [baseName] using this
  · have h1 : d ++ '/' :: b = (d ++ ['/']) ++ b := by simp
    rw [h1, baseName_append_noSlash _ b hb]
    have h2 : baseName (d ++ ['/']) = [] := by
      unfold baseName
      rw [List.reverse_append]
      simp [List.takeWhile_cons]
    rw [h2, List.nil_append]

lemma revMatch_none_of_no_dot (l : Str) (acc : Nat)
    (h : '.' ∉ l.takeWhile (fun c => c ≠ '/')) : revMatch l acc = none := by
  induction l generalizing acc with
  | nil => rfl
  | cons c rest ih =>
    by_cases hc : c = '.'
    · subst hc
      exact absurd (by simp [List.takeWhile_cons]) h
    · by_cases hs : c = '/'
      · subst hs; simp [revMatch]
      · rw [revMatch]
        simp only [hc, hs, if_false]
        exact ih _ (fun hmem => h (by simpa [List.takeWhile_cons, hs] using Or.inr hmem))

lemma revMatch_append_some (l r : Str) (acc n : Nat)
    (h : revMatch l acc = some n) : revMatch (l ++ r) acc = some n := by
  induction l generalizing acc with
  | nil => simp [revMatch] at h
  | cons c rest ih =>
    rw [revMatch] at h
    rw [List.cons_append, revMatch]
    by_cases hc : c = '.'
    · simp only [hc, if_true] at h ⊢
      exact h
    · by_cases hs : c = '/'
      · simp [hc, hs] at h
      · simp only [hc, hs, if_false] at h ⊢
        exact ih _ h

/-! ### Derived-key recognition lemmas -/

lemma baseName_derivedKey_thumbnail (key : Str) :
    baseName (derivedKey .thumbnail key) = "thumb_".data ++ baseName key := by
  unfold derivedKey pathNormalize
  refine baseName_pathJoin _ _ ?_
  intro c hc
  rcases List.mem_append.1 hc with h | h
  · exact (by decide : ∀ x ∈ "thumb_".data, x ≠ '/') c h
  · exact slash_not_mem_baseName key c h

lemma replaceExt_of_hasExt (b sfx : Str) (hx : hasExt b = true) :
    ∃ n, replaceExt b sfx = b.take (b.length - n) ++ sfx := by
  unfold hasExt at hx
  cases hrm : revMatch b.reverse 0 with
  | none => rw [hrm] at hx; simp at hx
  | some n => exact ⟨n, by unfold replaceExt; rw [hrm]⟩

lemma baseName_derivedKey_replace (key sfx : Str) (hsl : ∀ c ∈ sfx, c ≠ '/')
    (hx : hasExt (baseName key) = true) :
    ∃ pre, baseName (pathNormalize (pathJoin (dirName key) (replaceExt (baseName key) sfx)))
      = pre ++ sfx := by
  obtain ⟨n, heq⟩ := replaceExt_of_hasExt (baseName key) sfx hx
  refine ⟨(baseName key).take ((baseName key).length - n), ?_⟩
  unfold pathNormalize
  rw [heq]
  refine baseName_pathJoin _ _ ?_
  intro c hc
  rcases List.mem_append.1 hc with h | h
  · exact slash_not_mem_baseName key c (List.take_subset _ _ h)
  · exact hsl c h

lemma revMatch_full_of_baseName (key : Str) (hx : hasExt (baseName key) = true) :
    ∃ n, revMatch key.reverse 0 = some n := by
  unfold hasExt at hx
  have hrev : (baseName key).reverse = key.reverse.takeWhile (fun c => c ≠ '/') := by
    simp [baseName]
  cases hrm : revMatch (baseName key).reverse 0 with
  | none => rw [hrm] at hx; simp at hx
  | some n =>
    refine ⟨n, ?_⟩
    have hsplit : key.reverse
        = key.reverse.takeWhile (fun c => c ≠ '/') ++ key.reverse.dropWhile (fun c => c ≠ '/') :=
      (List.takeWhile_append_dropWhile _ _).symm
    rw [hsplit]
    rw [hrev] at hrm
    exact revMatch_append_some _ _ _ _ hrm

lemma baseName_derivedKey_poster (key : Str) (hx : hasExt (baseName key) = true) :
    ∃ pre, baseName (derivedKey .poster key) = pre ++ "_poster.jpg".data := by
  obtain ⟨n, hrm⟩ := revMatch_full_of_baseName key hx
  have heq : derivedKey .poster key
      = key.take (key.length - n) ++ "_poster.jpg".data := by
    unfold derivedKey replaceExt
    rw [hrm]
  rw [heq, baseName_append_noSlash _ _ (by decide)]
  exact ⟨baseName (key.take (key.length - n)), rfl⟩

/-- C1 (amended): for the Thumbnail kind the loop-prevention invariant holds for
every input key; for the Transcode, Preview and Poster kinds it holds whenever
the input key's base name has a dot-extension the naming regex matches.  `ict`
and `vct` stand for the corresponding image/video content types of the
re-delivered derived artifact. -/
theorem derived_keys_recognized (key ict vct : Str)
    (hi : "image/".data.isPrefixOf (lower ict) = true)
    (hv1 : "image/".data.isPrefixOf (lower vct) = false)
    (hv2 : "video/".data.isPrefixOf (lower vct) = true) :
    isAlreadyDerived (derivedKey .thumbnail key) ict = true ∧
    (hasExt (baseName key) = true →
      isAlreadyDerived (derivedKey .transcode key) vct = true ∧
      isAlreadyDerived (derivedKey .preview key) vct = true ∧
      isAlreadyDerived (derivedKey .poster key) ict = true) := by
  constructor
  · unfold isAlreadyDerived
    rw [hi]
    simp only [if_true, baseName_derivedKey_thumbnail, lower_append, Bool.or_eq_true]
    left
    have : lower "thumb_".data = "thumb_".data := by decide
    rw [this]
    exact isPrefixOf_append_self _ _
  · intro hx
    refine ⟨?_, ?_, ?_⟩
    · obtain ⟨pre, hpre⟩ := baseName_derivedKey_replace key "_output.mp4".data (by decide) hx
      unfold isAlreadyDerived
      rw [hv1, hv2]
      simp only [if_false, if_true, derivedKey] at hpre ⊢
      rw [hpre, lower_append]
      have : lower "_output.mp4".data = "_output.mp4".data := by decide
      rw [this]
      exact isSuffixOf_append_self _ _
    · obtain ⟨pre, hpre⟩ := baseName_derivedKey_replace key "_thumb_output.mp4".data (by decide) hx
      unfold isAlreadyDerived
      rw [hv1, hv2]
      simp only [if_false, if_true, derivedKey] at hpre ⊢
      rw [hpre, lower_append]
      have h1 : lower "_thumb_output.mp4".data = "_thumb".data ++ "_output.mp4".data := by decide
      rw [h1, ← List.append_assoc]
      exact isSuffixOf_append_self _ _
    · obtain ⟨pre, hpre⟩ := baseName_derivedKey_poster key hx
      unfold isAlreadyDerived
      rw [hi]
      simp only [if_true, Bool.or_eq_true]
      right
      rw [hpre, lower_append]
      have : lower "_poster.jpg".data = "_poster.jpg".data := by decide
      rw [this]
      exact isSuffixOf_append_self _ _

/-- C1 (counterexample): for a key whose base name has no extension the
transcode key equals the key itself, and it is not recognized as already
derived — re-delivered, it would be transcoded again. -/
theorem derivedKey_unrecognized_without_extension :
    isAlreadyDerived (derivedKey .transcode "video".data) "video/mp4".data = false := by decide

/-- C1 (witness): the amended statement applied to the key `media/clip.mov`. -/
theorem derived_keys_recognized_witness :
    isAlreadyDerived (derivedKey .thumbnail "media/clip.mov".data) "image/jpeg".data = true ∧
    (hasExt (baseName "media/clip.mov".data) = true →
      isAlreadyDerived (derivedKey .transcode "media/clip.mov".data) "video/mp4".data = true ∧
      isAlreadyDerived (derivedKey .preview "media/clip.mov".data) "video/mp4".data = true ∧
      isAlreadyDerived (derivedKey .poster "media/clip.mov".data) "image/jpeg".data = true) :=
  derived_keys_recognized "media/clip.mov".data "image/jpeg".data "video/mp4".data
    (by decide) (by decide) (by decide)

/-! ### Claims C8, C4, C5, C7 -/

/-- C8 (code bug): `getCodec` does take the codec of the FIRST stream whose
type is `"video"` (a promise keeps its first settlement, so the second video
stream below is ignored), but for a file with no video stream it never calls
`resolve` or `reject` at all — the promise never settles and the awaiting
invocation hangs, instead of returning `videoCodec = null` as specified. -/
theorem getCodec_no_video_stream_unsettled :
    getCodec (.ok ⟨[⟨"audio".data, "aac".data, 0, 0⟩]⟩) = .unsettled ∧
    getCodec (.ok ⟨[⟨"audio".data, "aac".data, 0, 0⟩,
      ⟨"video".data, "h264".data, 1920, 1080⟩,
      ⟨"video".data, "vp9".data, 640, 480⟩]⟩) = .resolved "h264".data := by decide

/-- C4 (confirmed): a content type that, lowercased, starts with neither
`image/` nor `video/` makes `handle` return normally with an empty effect
trace — zero downloads and zero uploads. -/
theorem ineligible_noop (o : InObject) (env : Env)
    (hi : "image/".data.isPrefixOf (lower o.contentType) = false)
    (hv : "video/".data.isPrefixOf (lower o.contentType) = false) :
    (handle o env).1 = .ok ∧
    (handle o env).2.countP Event.isDownload = 0 ∧
    (handle o env).2.countP Event.isUpload = 0 := by
  unfold handle
  simp [hi, hv]

/-- An environment in which every external call succeeds and ffprobe returns
the given metadata. -/
def envOkWith (probe : Except Unit FfprobeMetadata) : Env :=
  ⟨true, probe, true, true, true, true, true, true, true, true⟩

/-- A single-video-stream probe result with the given codec and dimensions. -/
def mdSingle (codec : Str) (w h : Int) : FfprobeMetadata :=
  ⟨[⟨"video".data, codec, w, h⟩]⟩

/-- C4 (witness): a `text/plain` upload is a no-op. -/
theorem ineligible_noop_witness :
    (handle ⟨"notes.txt".data, "b".data, "text/plain".data⟩ (envOkWith (.error ()))).1 = .ok ∧
    (handle ⟨"notes.txt".data, "b".data, "text/plain".data⟩ (envOkWith (.error ()))).2.countP Event.isDownload = 0 ∧
    (handle ⟨"notes.txt".data, "b".data, "text/plain".data⟩ (envOkWith (.error ()))).2.countP Event.isUpload = 0 :=
  ineligible_noop _ (envOkWith (.error ())) (by decide) (by decide)

/-- C5 (confirmed): when the inbound key is classified as already derived, the
invocation performs at most one download (the check runs after the download)
and no upload and no transform at all. -/
theorem already_derived_skip (o : InObject) (env : Env)
    (hd : isAlreadyDerived o.name o.contentType = true) :
    (handle o env).2.countP Event.isDownload ≤ 1 ∧
    (handle o env).2.countP Event.isUpload = 0 ∧
    (handle o env).2.countP Event.isTransform = 0 := by
  by_cases himg : "image/".data.isPrefixOf (lower o.contentType) = true
  · have hcond : ("thumb_".data.isPrefixOf (lower (baseName o.name))
        || "_poster.jpg".data.isSuffixOf (lower (baseName o.name))) = true := by
      unfold isAlreadyDerived at hd
      rw [himg] at hd
      simpa using hd
    by_cases hdl : env.downloadOk = true
    · unfold handle imageBranch
      simp [himg, hdl, hcond, Event.isDownload, Event.isUpload, Event.isTransform]
    · unfold handle
      simp [himg, Bool.eq_false_iff.2 hdl, Event.isDownload, Event.isUpload, Event.isTransform]
  · by_cases hvid : "video/".data.isPrefixOf (lower o.contentType) = true
    · have hcond : "_output.mp4".data.isSuffixOf (lower (baseName o.name)) = true := by
        unfold isAlreadyDerived at hd
        rw [hvid] at hd
        simp only [Bool.not_eq_true] at himg
        rw [himg] at hd
        simpa using hd
      by_cases hdl : env.downloadOk = true
      · unfold handle videoBranch
        simp only [Bool.not_eq_true] at himg
        simp [himg, hvid, hdl, hcond, Event.isDownload, Event.isUpload, Event.isTransform]
      · unfold handle
        simp only [Bool.not_eq_true] at himg
        simp [himg, hvid, Bool.eq_false_iff.2 hdl, Event.isDownload, Event.isUpload,
          Event.isTransform]
    · exfalso
      unfold isAlreadyDerived at hd
      simp only [Bool.not_eq_true] at himg hvid
      rw [himg, hvid] at hd
      simp at hd

/-- C5 (witness): an already-converted video key is skipped after one download. -/
theorem already_derived_skip_witness :
    (handle ⟨"m/clip_output.mp4".data, "b".data, "video/mp4".data⟩
      (envOkWith (.ok (mdSingle "h264".data 1920 1080)))).2.countP Event.isDownload ≤ 1 ∧
    (handle ⟨"m/clip_output.mp4".data, "b".data, "video/mp4".data⟩
      (envOkWith (.ok (mdSingle "h264".data 1920 1080)))).2.countP Event.isUpload = 0 ∧
    (handle ⟨"m/clip_output.mp4".data, "b".data, "video/mp4".data⟩
      (envOkWith (.ok (mdSingle "h264".data 1920 1080)))).2.countP Event.isTransform = 0 :=
  already_derived_skip _ _ (by decide)

/-- C7 (confirmed): an image whose probed dimensions are both strictly below
the 300×300 thumbnail box produces nothing: the whole trace is free of
transforms and uploads. -/
theorem small_image_no_thumbnail (o : InObject) (env : Env) (d : Dimensions)
    (hct : "image/".data.isPrefixOf (lower o.contentType) = true)
    (hdim : getDimentions env.probe = .resolved d)
    (hw : d.width < THUMB_MAX_WIDTH) (hh : d.height < THUMB_MAX_HEIGHT) :
    ∀ e ∈ (handle o env).2, Event.isTransform e = false ∧ Event.isUpload e = false := by
  by_cases hdl : env.downloadOk = true
  · unfold handle imageBranch
    by_cases hsk : ("thumb_".data.isPrefixOf (lower (baseName o.name))
        || "_poster.jpg".data.isSuffixOf (lower (baseName o.name))) = true
    · simp [hct, hdl, hsk, List.forall_mem_cons, Event.isTransform, Event.isUpload]
    · simp only [Bool.not_eq_true] at hsk
      simp [hct, hdl, hsk, hdim, hw, hh, List.forall_mem_cons, Event.isTransform, Event.isUpload]
  · unfold handle
    simp [hct, Bool.eq_false_iff.2 hdl, List.forall_mem_cons, Event.isTransform, Event.isUpload]

/-- C7 (witness): a 200×150 image is left alone — the probe event that its
invocation does perform is neither a transform nor an upload. -/
theorem small_image_no_thumbnail_witness :
    Event.isTransform (Event.probe (pathJoin tmpdir "pics/tiny.png".data)) = false ∧
    Event.isUpload (Event.probe (pathJoin tmpdir "pics/tiny.png".data)) = false :=
  small_image_no_thumbnail ⟨"pics/tiny.png".data, "b".data, "image/png".data⟩
    (envOkWith (.ok (mdSingle "png".data 200 150))) ⟨200, 150⟩
    (by decide) (by decide) (by decide) (by decide)
    (Event.probe (pathJoin tmpdir "pics/tiny.png".data)) (by decide)

/-! ### Claim C2: scratch-file cleanup -/

/-- C2 (counterexample): an image key already carrying the `thumb_` prefix is
downloaded and then skipped by the early `return` of index.js line 66, which
unlinks nothing — the invocation returns successfully with the downloaded
scratch file still on disk. -/
theorem downloaded_scratch_survives_skip :
    (handle ⟨"thumb_a.jpg".data, "b".data, "image/jpeg".data⟩ (envOkWith (.error ()))).1
      = .ok ∧
    Event.download "thumb_a.jpg".data (pathJoin tmpdir "thumb_a.jpg".data)
      ∈ (handle ⟨"thumb_a.jpg".data, "b".data, "image/jpeg".data⟩ (envOkWith (.error ()))).2 ∧
    Event.unlink (pathJoin tmpdir "thumb_a.jpg".data)
      ∉ (handle ⟨"thumb_a.jpg".data, "b".data, "image/jpeg".data⟩ (envOkWith (.error ()))).2 := by
  decide

/-- C2 (amended): the downloaded scratch file is removed exactly on the fully
successful processing paths — whenever the invocation returns `ok` having
uploaded at least one artifact, an `unlink` of the downloaded file is in the
trace.  On the early classification/size skips and on every failure path the
file is left behind. -/
lemma imageBranch_ok_cleanup (ct d b t : Str) (env : Env) (ev : List Event)
    (hok : (imageBranch ct d b t env ev).1 = .ok) :
    (imageBranch ct d b t env ev).2 = ev ∨
    (imageBranch ct d b t env ev).2 = ev ++ [Event.probe t] ∨
    Event.unlink t ∈ (imageBranch ct d b t env ev).2 := by
  unfold imageBranch at hok ⊢
  dsimp only at hok ⊢
  by_cases c3 : ("thumb_".data.isPrefixOf (lower b)
      || "_poster.jpg".data.isSuffixOf (lower b)) = true
  · rw [if_pos c3]
    left; rfl
  · rw [if_neg c3] at hok ⊢
    cases hgd : getDimentions env.probe with
    | rejected => rw [hgd] at hok; simp at hok
    | unsettled => rw [hgd] at hok; simp at hok
    | resolved dims =>
      rw [hgd] at hok
      dsimp only at hok ⊢
      by_cases c4 : dims.width < THUMB_MAX_WIDTH ∧ dims.height < THUMB_MAX_HEIGHT
      · rw [if_pos c4]
        right; left; rfl
      · rw [if_neg c4] at hok ⊢
        by_cases c5 : env.thumbConvertOk = true
        · rw [if_pos c5] at hok ⊢
          by_cases c6 : env.thumbUploadOk = true
          · rw [if_pos c6]
            right; right
            simp [List.mem_append]
          · rw [if_neg c6] at hok; simp at hok
        · rw [if_neg c5] at hok; simp at hok

lemma videoBranch_ok_cleanup (fp d b t : Str) (env : Env) (ev : List Event) :
    (videoBranch fp d b t env ev).1 = .ok →
    ((videoBranch fp d b t env ev).2 = ev ∨
     Event.unlink t ∈ (videoBranch fp d b t env ev).2) := by
  unfold videoBranch
  dsimp only
  by_cases c7 : "_output.mp4".data.isSuffixOf (lower b) = true
  · rw [if_pos c7]
    intro _
    left; rfl
  · rw [if_neg c7]
    cases hgc : getCodec env.probe with
    | rejected => intro hok; simp at hok
    | unsettled => intro hok; simp at hok
    | resolved codec =>
      dsimp only
      rcases h1 : (if codec ≠ "h264".data
          then transcodeStep d b t env (ev ++ [Event.probe t])
          else (Outcome.ok, ev ++ [Event.probe t])) with ⟨o1, ev1⟩
      cases o1 with
      | error => intro hok; simp at hok
      | hang => intro hok; simp at hok
      | ok =>
        dsimp only
        rcases h2 : posterStep fp t env ev1 with ⟨o2, ev2⟩
        cases o2 with
        | error => intro hok; simp at hok
        | hang => intro hok; simp at hok
        | ok =>
          dsimp only
          cases hgd : getDimentions env.probe with
          | rejected => intro hok; simp at hok
          | unsettled => intro hok; simp at hok
          | resolved dims =>
            dsimp only
            rcases h3 : (if previewReduce dims.width dims.height > 0
                then previewStep d b t env (ev2 ++ [Event.probe t])
                  (previewReduce dims.width dims.height)
                else (Outcome.ok, ev2 ++ [Event.probe t])) with ⟨o3, ev3⟩
            cases o3 with
            | error => intro hok; simp at hok
            | hang => intro hok; simp at hok
            | ok =>
              intro _
              right
              simp [List.mem_append]

theorem scratch_removed_on_upload_success (o : InObject) (env : Env) :
    (handle o env).1 = .ok →
    (∃ e ∈ (handle o env).2, Event.isUpload e = true) →
    Event.unlink (pathJoin tmpdir o.name) ∈ (handle o env).2 := by
  intro h1 h2
  by_cases c0 : (!("image/".data.isPrefixOf (lower o.contentType))
      && !("video/".data.isPrefixOf (lower o.contentType))) = true
  · unfold handle at h2
    dsimp only at h2
    rw [if_pos c0] at h2
    simp at h2
  · by_cases c2 : env.downloadOk = true
    · by_cases cimg : "image/".data.isPrefixOf (lower o.contentType) = true
      · unfold handle at h1 h2 ⊢
        dsimp only at h1 h2 ⊢
        rw [if_neg c0, if_pos c2, if_pos cimg] at h1 h2 ⊢
        rcases imageBranch_ok_cleanup _ _ _ _ _ _ h1 with he | he | he
        · rw [he] at h2
          simp [Event.isUpload] at h2
        · rw [he] at h2
          simp [Event.isUpload] at h2
        · exact he
      · by_cases cvid : "video/".data.isPrefixOf (lower o.contentType) = true
        · unfold handle at h1 h2 ⊢
          dsimp only at h1 h2 ⊢
          rw [if_neg c0, if_pos c2, if_neg cimg, if_pos cvid] at h1 h2 ⊢
          rcases videoBranch_ok_cleanup _ _ _ _ _ _ h1 with he | he
          · rw [he] at h2
            simp [Event.isUpload] at h2
          · exact he
        · exfalso
          apply c0
          simp only [Bool.and_eq_true, Bool.not_eq_true']
          exact ⟨Bool.eq_false_iff.2 (fun h => cimg h), Bool.eq_false_iff.2 (fun h => cvid h)⟩
    · unfold handle at h2
      dsimp only at h2
      rw [if_neg c0, if_neg c2] at h2
      simp [Event.isUpload] at h2

/-- C2 (witness): on a fully successful image invocation the downloaded
scratch file is unlinked. -/
theorem scratch_removed_on_upload_success_witness :
    Event.unlink (pathJoin tmpdir "a/b.jpg".data)
      ∈ (handle ⟨"a/b.jpg".data, "b".data, "image/jpeg".data⟩
          (envOkWith (.ok (mdSingle "png".data 800 600)))).2 :=
  scratch_removed_on_upload_success _ _ (by decide) (by decide)

/-! ### Claim C9: failures abort the remaining pipeline steps -/

/-- C9 (confirmed): for an eligible, not-already-derived video input, a failed
download or probe yields an error with no transform and no upload at all; a
failed transcode conversion yields an error before any upload, and a failed
transcode upload yields an error right after that single upload — in both
cases the only transform in the trace is the attempted 100% transcode, i.e.
the poster and preview steps are never reached. -/
theorem failure_aborts_pipeline (o : InObject) (env : Env)
    (himg : "image/".data.isPrefixOf (lower o.contentType) = false)
    (hvid : "video/".data.isPrefixOf (lower o.contentType) = true)
    (hnd : "_output.mp4".data.isSuffixOf (lower (baseName o.name)) = false) :
    (env.downloadOk = false →
      (handle o env).1 = .error ∧
      (handle o env).2.countP Event.isTransform = 0 ∧
      (handle o env).2.countP Event.isUpload = 0) ∧
    (env.downloadOk = true → env.probe = .error () →
      (handle o env).1 = .error ∧
      (handle o env).2.countP Event.isTransform = 0 ∧
      (handle o env).2.countP Event.isUpload = 0) ∧
    (∀ codec, env.downloadOk = true → getCodec env.probe = .resolved codec →
      codec ≠ "h264".data → env.transcodeConvertOk = false →
      (handle o env).1 = .error ∧
      (handle o env).2.countP Event.isUpload = 0 ∧
      (∀ tr, Event.transform tr ∈ (handle o env).2 → tr.kind = TKind.ffmpegConvert 100)) ∧
    (∀ codec, env.downloadOk = true → getCodec env.probe = .resolved codec →
      codec ≠ "h264".data → env.transcodeConvertOk = true → env.transcodeUploadOk = false →
      (handle o env).1 = .error ∧
      (handle o env).2.countP Event.isUpload = 1 ∧
      (∀ tr, Event.transform tr ∈ (handle o env).2 → tr.kind = TKind.ffmpegConvert 100)) ∧
    (env.downloadOk = true → getCodec env.probe = .resolved "h264".data →
      env.posterConvertOk = false →
      (handle o env).1 = .error ∧
      (handle o env).2.countP Event.isUpload = 0 ∧
      (∀ tr, Event.transform tr ∈ (handle o env).2 → tr.kind = TKind.ffmpegPoster 1 1)) := by
  refine ⟨fun hdl => ?_, fun hdl hpr => ?_, fun codec hdl hgc hne htc => ?_,
    fun codec hdl hgc hne htc htu => ?_, fun hdl hgc hpcf => ?_⟩
  · simp [handle, himg, hvid, hdl, Event.isTransform, Event.isUpload]
  · simp [handle, videoBranch, himg, hvid, hdl, hnd, hpr, getCodec,
      Event.isTransform, Event.isUpload]
  · simp only [handle, videoBranch, transcodeStep, himg, hvid, hdl, hnd, hgc, hne]
    simp [himg, hvid, hnd, hne, htc, Event.isUpload, Event.isTransform]
  · simp only [handle, videoBranch, transcodeStep, himg, hvid, hdl, hnd, hgc, hne]
    simp [himg, hvid, hnd, hne, htc, htu, Event.isUpload, Event.isTransform]
  · simp only [handle, videoBranch, posterStep, himg, hvid, hdl, hnd, hgc]
    simp [himg, hvid, hnd, hpcf, Event.isUpload, Event.isTransform]

/-- Environment for the C9 witness: transcode conversion fails, everything
else would succeed. -/
def envTranscodeFail : Env :=
  ⟨true, .ok (mdSingle "mpeg4".data 1920 1080), true, true, false, true, true, true, true, true⟩

/-- C9 (witness): a failed transcode aborts the invocation with no upload and
no poster/preview attempt. -/
theorem failure_aborts_pipeline_witness :
    (handle ⟨"m/v.avi".data, "b".data, "video/avi".data⟩ envTranscodeFail).1 = .error ∧
    (handle ⟨"m/v.avi".data, "b".data, "video/avi".data⟩ envTranscodeFail).2.countP
      Event.isUpload = 0 ∧
    (∀ tr, Event.transform tr
        ∈ (handle ⟨"m/v.avi".data, "b".data, "video/avi".data⟩ envTranscodeFail).2 →
      tr.kind = TKind.ffmpegConvert 100) :=
  (failure_aborts_pipeline ⟨"m/v.avi".data, "b".data, "video/avi".data⟩ envTranscodeFail
    (by decide) (by decide) (by decide)).2.2.1 "mpeg4".data rfl (by decide) (by decide) rfl

/-! ### Claim C6: the h264 codec gate -/

lemma reduceHeightPercentage_lt_100 (h : Int) : reduceHeightPercentage h < 100 := by
  unfold reduceHeightPercentage
  split
  · rename_i hgt
    have h0 : (480:ℚ) < (h:ℚ) := by exact_mod_cast hgt
    have hpos : (0:ℚ) < (h:ℚ) := lt_trans (by norm_num) h0
    have hq : (0:ℚ) < (((h:ℚ) - 480) / (h:ℚ)) * 100 :=
      mul_pos (div_pos (by linarith) hpos) (by norm_num)
    linarith
  · norm_num

lemma reduceWidthPercentage_lt_100 (w : Int) : reduceWidthPercentage w < 100 := by
  unfold reduceWidthPercentage
  split
  · rename_i hgt
    have h0 : (425:ℚ) < (w:ℚ) := by exact_mod_cast hgt
    have hpos : (0:ℚ) < (w:ℚ) := lt_trans (by norm_num) h0
    have hq : (0:ℚ) < (((w:ℚ) - 425) / (w:ℚ)) * 100 :=
      mul_pos (div_pos (by linarith) hpos) (by norm_num)
    linarith
  · norm_num

/-- The preview scale is always strictly below 100%, so a preview transform can
never be mistaken for the 100% transcode transform. -/
lemma previewReduce_lt_100 (w h : Int) : previewReduce w h < 100 := by
  unfold previewReduce
  have h1 := reduceHeightPercentage_lt_100 h
  have h2 := reduceWidthPercentage_lt_100 w
  have hlt : (if reduceHeightPercentage h < reduceWidthPercentage w
      then reduceHeightPercentage h else reduceWidthPercentage w) < 100 := by
    split <;> assumption
  exact Int.floor_lt.2 (by exact_mod_cast hlt)

/-- For an eligible video input with a successful download, `handle` is the
video branch run after the download event. -/
lemma handle_video_eq (o : InObject) (env : Env)
    (himg : "image/".data.isPrefixOf (lower o.contentType) = false)
    (hvid : "video/".data.isPrefixOf (lower o.contentType) = true)
    (hdl : env.downloadOk = true) :
    handle o env = videoBranch o.name (dirName o.name) (baseName o.name)
      (pathJoin tmpdir o.name) env [Event.download o.name (pathJoin tmpdir o.name)] := by
  unfold handle
  dsimp only
  rw [if_neg (by simp [hvid]), if_pos hdl, if_neg (by simp [himg]), if_pos hvid]

/-- C6 (confirmed): a video whose probed codec is already `h264` is never
transcoded (no 100%-scale convert transform appears in the trace) but the
poster is still extracted (seek 1 second, 1 frame) and uploaded privately to
the `_poster.jpg` key. -/
theorem h264_codec_gate (o : InObject) (env : Env)
    (himg : "image/".data.isPrefixOf (lower o.contentType) = false)
    (hvid : "video/".data.isPrefixOf (lower o.contentType) = true)
    (hnd : "_output.mp4".data.isSuffixOf (lower (baseName o.name)) = false)
    (hdl : env.downloadOk = true)
    (hgc : getCodec env.probe = .resolved "h264".data)
    (hpc : env.posterConvertOk = true)
    (hpu : env.posterUploadOk = true) :
    (∀ tr, Event.transform tr ∈ (handle o env).2 → tr.kind ≠ TKind.ffmpegConvert 100) ∧
    Event.transform ⟨pathJoin tmpdir o.name,
        pathJoin tmpdir (replaceExt o.name "_poster.jpg".data),
        TKind.ffmpegPoster 1 1⟩ ∈ (handle o env).2 ∧
    Event.upload ⟨pathJoin tmpdir (replaceExt o.name "_poster.jpg".data),
        replaceExt o.name "_poster.jpg".data, false, none,
        some "public, max-age=31536000".data, true⟩ ∈ (handle o env).2 := by
  rcases hp : env.probe with u | md
  · rw [hp] at hgc
    simp [getCodec] at hgc
  · rw [hp] at hgc
    cases hstr : md.streams with
    | nil =>
      rw [getCodec] at hgc
      simp [hstr] at hgc
    | cons s0 rest =>
      have hgd : getDimentions (Except.ok md) = .resolved ⟨s0.width, s0.height⟩ := by
        simp [getDimentions, hstr]
      have hne100 : previewReduce s0.width s0.height ≠ 100 :=
        (previewReduce_lt_100 s0.width s0.height).ne
      rw [handle_video_eq o env himg hvid hdl]
      rcases lt_or_le 0 (previewReduce s0.width s0.height) with cr | cr
      · by_cases cpc : env.previewConvertOk = true <;>
          by_cases cpu : env.previewUploadOk = true <;>
          simp_all [videoBranch, posterStep, previewStep, Event.isTransform,
            Event.isUpload, List.mem_append, TKind.ffmpegConvert.injEq]
      · have hcr : (0 < previewReduce s0.width s0.height) = False :=
          eq_false (not_lt.2 cr)
        simp [videoBranch, posterStep, hcr, hnd, hp, hgc, hgd, hpc, hpu,
          Event.isTransform, Event.isUpload, List.mem_append,
          TKind.ffmpegConvert.injEq, hne100]

/-- C6 (witness): the codec gate at a concrete h264 video. -/
theorem h264_codec_gate_witness :
    (∀ tr, Event.transform tr ∈ (handle ⟨"m/v.mp4".data, "b".data, "video/mp4".data⟩
        (envOkWith (.ok (mdSingle "h264".data 1920 1080)))).2 →
      tr.kind ≠ TKind.ffmpegConvert 100) ∧
    Event.transform ⟨pathJoin tmpdir "m/v.mp4".data,
        pathJoin tmpdir (replaceExt "m/v.mp4".data "_poster.jpg".data),
        TKind.ffmpegPoster 1 1⟩ ∈ (handle ⟨"m/v.mp4".data, "b".data, "video/mp4".data⟩
        (envOkWith (.ok (mdSingle "h264".data 1920 1080)))).2 ∧
    Event.upload ⟨pathJoin tmpdir (replaceExt "m/v.mp4".data "_poster.jpg".data),
        replaceExt "m/v.mp4".data "_poster.jpg".data, false, none,
        some "public, max-age=31536000".data, true⟩
      ∈ (handle ⟨"m/v.mp4".data, "b".data, "video/mp4".data⟩
        (envOkWith (.ok (mdSingle "h264".data 1920 1080)))).2 :=
  h264_codec_gate ⟨"m/v.mp4".data, "b".data, "video/mp4".data⟩
    (envOkWith (.ok (mdSingle "h264".data 1920 1080)))
    (by decide) (by decide) (by decide) rfl rfl rfl rfl

/-! ### Claim C3: the preview scale formula -/

/-- C3 (confirmed): the code's preview reduction equals the spec's per-axis
formula (threshold 480 for height, 425 for width, clamp at the threshold,
floor of the minimum); the two quoted instances evaluate to 0 and 50; and on
the video path a preview transform at exactly that percentage appears in the
trace iff the floored value is positive. -/
theorem preview_scale_formula (o : InObject) (env : Env) (w h : Int)
    (himg : "image/".data.isPrefixOf (lower o.contentType) = false)
    (hvid : "video/".data.isPrefixOf (lower o.contentType) = true)
    (hnd : "_output.mp4".data.isSuffixOf (lower (baseName o.name)) = false)
    (hdl : env.downloadOk = true)
    (hgc : getCodec env.probe = .resolved "h264".data)
    (hgd : getDimentions env.probe = .resolved ⟨w, h⟩)
    (hpc : env.posterConvertOk = true) (hpu : env.posterUploadOk = true)
    (hvc : env.previewConvertOk = true) (hvu : env.previewUploadOk = true) :
    previewReduce w h = specPreviewScale w h ∧
    previewReduce 425 960 = 0 ∧
    previewReduce 850 960 = 50 ∧
    ((∃ tr, Event.transform tr ∈ (handle o env).2 ∧
        tr.kind = TKind.ffmpegConvert (previewReduce w h)) ↔ 0 < previewReduce w h) := by
  refine ⟨?_, ?_, ?_, ?_⟩
  · have hspec : specPreviewScale w h
        = Int.floor (min (reduceHeightPercentage h) (reduceWidthPercentage w)) := rfl
    rw [previewReduce, hspec]
    rcases lt_or_le (reduceHeightPercentage h) (reduceWidthPercentage w) with hlt | hle
    · rw [if_pos hlt, min_eq_left hlt.le]
    · rw [if_neg (not_lt.2 hle), min_eq_right hle]
  · norm_num [previewReduce, reduceHeightPercentage, reduceWidthPercentage]
  · norm_num [previewReduce, reduceHeightPercentage, reduceWidthPercentage]
  · rw [handle_video_eq o env himg hvid hdl]
    rcases lt_or_le 0 (previewReduce w h) with cr | cr
    · simp [videoBranch, posterStep, previewStep, hnd, hgc, hgd, hpc, hpu, hvc, hvu, cr,
        List.mem_append]
    · have hcr : (0 < previewReduce w h) = False := eq_false (not_lt.2 cr)
      simp [videoBranch, posterStep, hnd, hgc, hgd, hpc, hpu, hcr, List.mem_append]

/-- C3 (witness): the formula claims at the spec's quoted 850×960 instance. -/
theorem preview_scale_formula_witness :
    previewReduce 850 960 = specPreviewScale 850 960 ∧
    previewReduce 425 960 = 0 ∧
    previewReduce 850 960 = 50 ∧
    ((∃ tr, Event.transform tr ∈ (handle ⟨"m/v.mp4".data, "b".data, "video/mp4".data⟩
        (envOkWith (.ok (mdSingle "h264".data 850 960)))).2 ∧
      tr.kind = TKind.ffmpegConvert (previewReduce 850 960)) ↔ 0 < previewReduce 850 960) :=
  preview_scale_formula ⟨"m/v.mp4".data, "b".data, "video/mp4".data⟩
    (envOkWith (.ok (mdSingle "h264".data 850 960))) 850 960
    (by decide) (by decide) (by decide) rfl rfl rfl rfl rfl rfl rfl

/-! ### Claim C10: extensionless keys collapse onto the input key -/

lemma dropWhile_head_not (p : Char → Bool) (l : Str) (c : Char) (cs : Str)
    (h : l.dropWhile p = c :: cs) : p c = false := by
  induction l with
  | nil => simp [List.dropWhile] at h
  | cons a as ih =>
    rw [List.dropWhile_cons] at h
    by_cases hp : p a = true
    · rw [if_pos hp] at h
      exact ih h
    · rw [if_neg hp] at h
      cases h
      simpa using hp

lemma dropWhile_eq_nil_of_all (p : Char → Bool) (l : Str) (h : ∀ c ∈ l, p c = true) :
    l.dropWhile p = [] := by
  induction l with
  | nil => rfl
  | cons a as ih =>
    rw [List.dropWhile_cons, if_pos (h a (by simp))]
    exact ih fun c hc => h c (by simp [hc])

lemma takeWhile_eq_self_of_all (p : Char → Bool) (l : Str) (h : ∀ c ∈ l, p c = true) :
    l.takeWhile p = l := by
  have := takeWhile_append_sat p l [] h
  simpa using this

/-- Node `path.join(path.dirname s, path.basename s)` restores `s` for every key
that does not start with `./` (storage keys never do). -/
lemma pathJoin_dirName_baseName (s : Str) (hdir : '/' ∈ s → dirName s ≠ ['.']) :
    pathJoin (dirName s) (baseName s) = s := by
  by_cases hsl : '/' ∈ s
  · have hmem : '/' ∈ s.reverse := by simpa using hsl
    cases hdw : s.reverse.dropWhile (fun c => c ≠ '/') with
    | nil =>
      exfalso
      have hsplit := List.takeWhile_append_dropWhile
        (p := fun c => decide (c ≠ '/')) (l := s.reverse)
      rw [hdw, List.append_nil] at hsplit
      have htw : '/' ∈ s.reverse.takeWhile (fun c => decide (c ≠ '/')) := by
        rw [hsplit]
        exact hmem
      have := List.mem_takeWhile_imp htw
      simp at this
    | cons c rest =>
      have hc : c = '/' := by
        have := dropWhile_head_not _ _ _ _ hdw
        simpa using this
      subst hc
      have hdirS : dirName s = rest.reverse := by
        unfold dirName
        rw [hdw]
      have hsplit := List.takeWhile_append_dropWhile
        (p := fun c => decide (c ≠ '/')) (l := s.reverse)
      rw [hdw] at hsplit
      have hs : s = rest.reverse ++ '/' :: baseName s := by
        have h1 : s = s.reverse.reverse := (List.reverse_reverse s).symm
        rw [h1]
        conv_lhs => rw [← hsplit]
        rw [List.reverse_append]
        simp [baseName]
      unfold pathJoin
      rw [hdirS] at hdir ⊢
      rw [if_neg (hdir hsl)]
      exact hs.symm
  · have hall : ∀ c ∈ s.reverse, (fun c => decide (c ≠ '/')) c = true := by
      intro c hc
      have : c ∈ s := by simpa using hc
      by_contra hfc
      have hceq : c = '/' := by simpa using hfc
      subst hceq
      exact hsl this
    have hdirS : dirName s = ['.'] := by
      unfold dirName
      rw [dropWhile_eq_nil_of_all _ _ hall]
    have hbase : baseName s = s := by
      unfold baseName
      rw [takeWhile_eq_self_of_all _ _ hall]
      exact List.reverse_reverse s
    rw [hdirS, hbase]
    rfl

lemma mem_of_mem_takeWhile (p : Char → Bool) (l : Str) (c : Char)
    (h : c ∈ l.takeWhile p) : c ∈ l := by
  induction l with
  | nil => simp at h
  | cons a as ih =>
    rw [List.takeWhile_cons] at h
    by_cases hp : p a = true
    · rw [if_pos hp] at h
      rcases List.mem_cons.1 h with rfl | h2
      · simp
      · simp [ih h2]
    · rw [if_neg hp] at h
      simp at h

lemma replaceExt_baseName_noDot (s repl : Str) (hdot : '.' ∉ baseName s) :
    replaceExt (baseName s) repl = baseName s := by
  unfold replaceExt
  rw [revMatch_none_of_no_dot]
  intro hmem
  have hrev : '.' ∈ (baseName s).reverse := mem_of_mem_takeWhile _ _ _ hmem
  exact hdot (by simpa using hrev)

lemma replaceExt_key_noDot (s repl : Str) (hdot : '.' ∉ baseName s) :
    replaceExt s repl = s := by
  unfold replaceExt
  rw [revMatch_none_of_no_dot]
  intro hmem
  have h2 : '.' ∈ baseName s := by
    unfold baseName
    simpa using hmem
  exact hdot h2

/-- C10 (confirmed): when the base name has no dot, the extension-replacing
regex leaves it unchanged, so the Transcode, Preview and Poster target keys
all equal the input key, and the transcoded output is uploaded to the input
key itself, overwriting the original object. -/
theorem extensionless_video_overwrites (o : InObject) (env : Env) (codec : Str) (dw dh : Int)
    (himg : "image/".data.isPrefixOf (lower o.contentType) = false)
    (hvid : "video/".data.isPrefixOf (lower o.contentType) = true)
    (hnd : "_output.mp4".data.isSuffixOf (lower (baseName o.name)) = false)
    (hdl : env.downloadOk = true)
    (hdot : '.' ∉ baseName o.name)
    (hdir : '/' ∈ o.name → dirName o.name ≠ ['.'])
    (hgc : getCodec env.probe = .resolved codec)
    (hcne : codec ≠ "h264".data)
    (htc : env.transcodeConvertOk = true) (htu : env.transcodeUploadOk = true)
    (hgd : getDimentions env.probe = .resolved ⟨dw, dh⟩)
    (hpc : env.posterConvertOk = true) (hpu : env.posterUploadOk = true)
    (hvc : env.previewConvertOk = true) (hvu : env.previewUploadOk = true) :
    derivedKey .transcode o.name = o.name ∧
    derivedKey .preview o.name = o.name ∧
    derivedKey .poster o.name = o.name ∧
    Event.upload ⟨pathJoin tmpdir o.name, o.name, true, none,
      some "public, max-age=31536000".data, true⟩ ∈ (handle o env).2 := by
  have hkey : ∀ repl : Str,
      pathNormalize (pathJoin (dirName o.name) (replaceExt (baseName o.name) repl))
        = o.name := by
    intro repl
    rw [replaceExt_baseName_noDot _ _ hdot]
    exact pathJoin_dirName_baseName o.name hdir
  refine ⟨hkey _, hkey _, replaceExt_key_noDot _ _ hdot, ?_⟩
  rw [handle_video_eq o env himg hvid hdl]
  rcases lt_or_le 0 (previewReduce dw dh) with cr | cr
  · simp [videoBranch, transcodeStep, posterStep, previewStep, hnd, hgc, hcne, htc, htu,
      hgd, hpc, hpu, hvc, hvu, cr, hkey, List.mem_append]
  · have hcr : (0 < previewReduce dw dh) = False := eq_false (not_lt.2 cr)
    simp [videoBranch, transcodeStep, posterStep, hnd, hgc, hcne, htc, htu,
      hgd, hpc, hpu, hcr, hkey, List.mem_append]

/-- C10 (witness): the key `videos/clip` (no extension) collapses onto itself. -/
theorem extensionless_video_overwrites_witness :
    derivedKey .transcode "videos/clip".data = "videos/clip".data ∧
    derivedKey .preview "videos/clip".data = "videos/clip".data ∧
    derivedKey .poster "videos/clip".data = "videos/clip".data ∧
    Event.upload ⟨pathJoin tmpdir "videos/clip".data, "videos/clip".data, true, none,
      some "public, max-age=31536000".data, true⟩
      ∈ (handle ⟨"videos/clip".data, "b".data, "video/mp4".data⟩
        (envOkWith (.ok (mdSingle "mpeg4".data 640 480)))).2 :=
  extensionless_video_overwrites ⟨"videos/clip".data, "b".data, "video/mp4".data⟩
    (envOkWith (.ok (mdSingle "mpeg4".data 640 480))) "mpeg4".data 640 480
    (by decide) (by decide) (by decide) rfl (by decide) (by decide) rfl (by decide)
    rfl rfl rfl rfl rfl rfl rfl
